import Mathlib

/-!
Verification development for the raft consensus replica implementation.

The definitions below are shallow embeddings of the Go source: the wire
encoding of configurations (config.go), the vote handlers (rpc.go), the
append-entries receiver (rpc.go), the configuration bookkeeping
(config.go), the leader commit machinery (leader.go) and the failure
backoff (raft.go). Byte-level write/read primitives and the log store
are not part of the provided sources and are modelled from the spec, as
marked on their doc comments.
-/

namespace Raft

/-- Entry types of log entries (entryNop, entryUser, entryQuery,
entryBarrier, entryConfig, entryDummy in the source). -/
inductive EntryType where
  | nop
  | user
  | query
  | barrier
  | config
  | dummy
deriving DecidableEq, Repr

/-- Log entry: the entry struct with fields typ, index, term, data. -/
structure Entry where
  typ : EntryType
  index : Nat
  term : Nat
  data : List Nat
deriving DecidableEq, Repr

instance : Inhabited Entry := ⟨⟨.user, 0, 0, []⟩⟩

/-- Modelled from the spec: integers are written in a fixed byte order
(the write/read wire helpers used by config.go are not under src).
writeBE n v emits the n-byte big-endian encoding of v. -/
def writeBE : Nat → Nat → List Nat
  | 0, _ => []
  | n + 1, v => v / 256 ^ n % 256 :: writeBE n v

/-- Modelled from the spec: big-endian reader; returns the decoded value
together with the remaining bytes, or none if the input is too short. -/
def readBE : Nat → Nat → List Nat → Option (Nat × List Nat)
  | 0, acc, bs => some (acc, bs)
  | _ + 1, _, [] => none
  | n + 1, acc, b :: bs => readBE n (acc * 256 + b) bs

/-- Modelled from the spec: writeUint64. -/
def writeUint64 (v : Nat) : List Nat := writeBE 8 v

/-- Modelled from the spec: readUint64. -/
def readUint64 (bs : List Nat) : Option (Nat × List Nat) := readBE 8 0 bs

/-- Modelled from the spec: writeUint32. -/
def writeUint32 (v : Nat) : List Nat := writeBE 4 v

/-- Modelled from the spec: readUint32. -/
def readUint32 (bs : List Nat) : Option (Nat × List Nat) := readBE 4 0 bs

/-- Modelled from the spec: writeUint8. -/
def writeUint8 (v : Nat) : List Nat := writeBE 1 v

/-- Modelled from the spec: readUint8. -/
def readUint8 (bs : List Nat) : Option (Nat × List Nat) := readBE 1 0 bs

/-- Modelled from the spec: booleans are written as one byte. -/
def writeBool (b : Bool) : List Nat := [if b then 1 else 0]

/-- Modelled from the spec: a boolean byte reads back as (byte not 0). -/
def readBool (bs : List Nat) : Option (Bool × List Nat) :=
  match bs with
  | [] => none
  | b :: rest => some (b != 0, rest)

/-- Modelled from the spec: strings are written as length-prefixed bytes. -/
def writeString (s : List Nat) : List Nat := writeUint32 s.length ++ s

/-- Modelled from the spec: readString reads a u32 length then that many
bytes. -/
def readString (bs : List Nat) : Option (List Nat × List Nat) :=
  match readUint32 bs with
  | none => none
  | some (n, rest) =>
    if n ≤ rest.length then some (rest.take n, rest.drop n) else none

theorem readBE_writeBE (n : Nat) : ∀ (acc v : Nat) (rest : List Nat),
    readBE n acc (writeBE n v ++ rest) = some (acc * 256 ^ n + v % 256 ^ n, rest) := by
  induction n with
  | zero => intro acc v rest; simp [readBE, writeBE, Nat.mod_one]
  | succ n ih =>
    intro acc v rest
    have hsplit : writeBE (n + 1) v ++ rest
        = v / 256 ^ n % 256 :: (writeBE n v ++ rest) := rfl
    rw [hsplit]
    show readBE n (acc * 256 + v / 256 ^ n % 256) (writeBE n v ++ rest)
      = some (acc * 256 ^ (n + 1) + v % 256 ^ (n + 1), rest)
    rw [ih]
    congr 2
    rw [pow_succ, Nat.mod_mul]
    ring

theorem readUint64_writeUint64 (v : Nat) (rest : List Nat) (h : v < 2 ^ 64) :
    readUint64 (writeUint64 v ++ rest) = some (v, rest) := by
  have h8 : 0 * 256 ^ 8 + v % 256 ^ 8 = v := by
    rw [Nat.zero_mul, Nat.zero_add, show (256 : Nat) ^ 8 = 2 ^ 64 by norm_num]
    exact Nat.mod_eq_of_lt h
  unfold readUint64 writeUint64
  rw [readBE_writeBE, h8]

theorem readUint32_writeUint32 (v : Nat) (rest : List Nat) (h : v < 2 ^ 32) :
    readUint32 (writeUint32 v ++ rest) = some (v, rest) := by
  have h4 : 0 * 256 ^ 4 + v % 256 ^ 4 = v := by
    rw [Nat.zero_mul, Nat.zero_add, show (256 : Nat) ^ 4 = 2 ^ 32 by norm_num]
    exact Nat.mod_eq_of_lt h
  unfold readUint32 writeUint32
  rw [readBE_writeBE, h4]

theorem readUint8_writeUint8 (v : Nat) (rest : List Nat) (h : v < 2 ^ 8) :
    readUint8 (writeUint8 v ++ rest) = some (v, rest) := by
  have h1 : 0 * 256 ^ 1 + v % 256 ^ 1 = v := by
    rw [Nat.zero_mul, Nat.zero_add, show (256 : Nat) ^ 1 = 2 ^ 8 by norm_num]
    exact Nat.mod_eq_of_lt h
  unfold readUint8 writeUint8
  rw [readBE_writeBE, h1]

theorem readBool_writeBool (b : Bool) (rest : List Nat) :
    readBool (writeBool b ++ rest) = some (b, rest) := by
  cases b <;> simp [readBool, writeBool]

theorem readString_writeString (s rest : List Nat) (h : s.length < 2 ^ 32) :
    readString (writeString s ++ rest) = some (s, rest) := by
  unfold readString writeString
  rw [List.append_assoc, readUint32_writeUint32 _ _ h]
  simp

/-- Node in a raft configuration: the Node struct of config.go with
fields ID, Addr, Voter, Action; Addr is modelled as its byte sequence
and Action as its uint8 value. -/
structure Node where
  ID : Nat
  Addr : List Nat
  Voter : Bool
  Action : Nat
deriving DecidableEq, Repr

/-- Node.encode from config.go: ID, Addr, Voter, Action in order. -/
def Node.encode (n : Node) : List Nat :=
  writeUint64 n.ID ++ writeString n.Addr ++ writeBool n.Voter ++ writeUint8 n.Action

/-- Node.decode from config.go: reads the four fields in order. -/
def Node.decode (bs : List Nat) : Option (Node × List Nat) :=
  match readUint64 bs with
  | none => none
  | some (i, bs1) =>
    match readString bs1 with
    | none => none
    | some (addr, bs2) =>
      match readBool bs2 with
      | none => none
      | some (voter, bs3) =>
        match readUint8 bs3 with
        | none => none
        | some (action, bs4) => some (⟨i, addr, voter, action⟩, bs4)

theorem Node.decode_encode (n : Node) (rest : List Nat)
    (h1 : n.ID < 2 ^ 64) (h2 : n.Addr.length < 2 ^ 32) (h3 : n.Action < 2 ^ 8) :
    Node.decode (Node.encode n ++ rest) = some (n, rest) := by
  simp [Node.decode, Node.encode, List.append_assoc,
    readUint64_writeUint64 _ _ h1, readString_writeString _ _ h2,
    readBool_writeBool, readUint8_writeUint8 _ _ h3]

/-- Raft configuration: the Config struct with Nodes (a map from node id
to Node, modelled as an association list in iteration order), Index and
Term. -/
structure Config where
  Nodes : List (Nat × Node)
  Index : Nat
  Term : Nat
deriving DecidableEq, Repr

/-- Config.encode from config.go: writes the node count then each node,
wrapped in an entryConfig entry carrying the config's Index and Term. -/
def Config.encode (c : Config) : Entry :=
  ⟨.config, c.Index, c.Term,
    writeUint32 c.Nodes.length ++ (c.Nodes.map fun p => Node.encode p.2).flatten⟩

/-- Helper for Config.decode: the decode loop over the node count. -/
def readNodes : Nat → List Nat → Option (List Node × List Nat)
  | 0, bs => some ([], bs)
  | n + 1, bs =>
    match Node.decode bs with
    | none => none
    | some (nd, bs1) =>
      match readNodes n bs1 with
      | none => none
      | some (nds, bs2) => some (nd :: nds, bs2)

/-- Config.decode from config.go: requires an entryConfig entry, reads
the node count and the nodes, keys the resulting map by each node's ID,
and takes Index and Term from the entry. -/
def Config.decode (e : Entry) : Option Config :=
  if e.typ = EntryType.config then
    match readUint32 e.data with
    | none => none
    | some (size, bs) =>
      match readNodes size bs with
      | none => none
      | some (nds, _) => some ⟨nds.map fun nd => (nd.ID, nd), e.index, e.term⟩
  else none

theorem readNodes_encode (nds : List Node) (rest : List Nat)
    (h : ∀ nd ∈ nds, nd.ID < 2 ^ 64 ∧ nd.Addr.length < 2 ^ 32 ∧ nd.Action < 2 ^ 8) :
    readNodes nds.length ((nds.map Node.encode).flatten ++ rest) = some (nds, rest) := by
  induction nds with
  | nil => simp [readNodes]
  | cons nd nds ih =>
    have hh := h nd (List.mem_cons_self nd nds)
    have hrest := ih fun x hx => h x (List.mem_cons_of_mem _ hx)
    simp only [List.map_cons, List.flatten_cons, List.length_cons, List.append_assoc,
      readNodes]
    rw [Node.decode_encode _ _ hh.1 hh.2.1 hh.2.2]
    simp only
    rw [hrest]

/-- C8: for every Config whose Nodes map keys each equal the
corresponding node's ID field (and whose fields fit their wire widths),
decoding the entry produced by Config.encode yields the same Config:
same Nodes map, same Index, same Term. -/
theorem config_encode_decode_roundtrip (c : Config)
    (hkey : ∀ p ∈ c.Nodes, p.1 = p.2.ID)
    (hn : c.Nodes.length < 2 ^ 32)
    (hfit : ∀ p ∈ c.Nodes,
      p.2.ID < 2 ^ 64 ∧ p.2.Addr.length < 2 ^ 32 ∧ p.2.Action < 2 ^ 8) :
    Config.decode (Config.encode c) = some c := by
  have hmap : (c.Nodes.map fun p => Node.encode p.2)
      = (c.Nodes.map Prod.snd).map Node.encode := by
    rw [List.map_map]; rfl
  have hjoin : readNodes c.Nodes.length
      ((c.Nodes.map fun p => Node.encode p.2).flatten ++ [])
      = some (c.Nodes.map Prod.snd, []) := by
    rw [hmap]
    have hlen : c.Nodes.length = (c.Nodes.map Prod.snd).length := by simp
    rw [hlen]
    refine readNodes_encode _ _ ?_
    intro nd hnd
    rcases List.mem_map.mp hnd with ⟨p, hp, hpe⟩
    exact hpe ▸ hfit p hp
  rw [List.append_nil] at hjoin
  have hback : (c.Nodes.map Prod.snd).map (fun nd => (nd.ID, nd)) = c.Nodes := by
    rw [List.map_map]
    have hpt : ∀ p ∈ c.Nodes, ((fun nd => (nd.ID, nd)) ∘ Prod.snd) p = p := by
      intro p hp
      have hk := hkey p hp
      simp [Function.comp, ← hk]
    rw [List.map_congr_left hpt]
    exact List.map_id c.Nodes
  have hc : (Config.encode c).typ = EntryType.config := rfl
  unfold Config.decode
  rw [if_pos hc]
  show (match readUint32 (writeUint32 c.Nodes.length
      ++ (c.Nodes.map fun p => Node.encode p.2).flatten) with
    | none => none
    | some (size, bs) =>
      match readNodes size bs with
      | none => none
      | some (nds, _) =>
        some (⟨nds.map fun nd => (nd.ID, nd), (Config.encode c).index,
          (Config.encode c).term⟩ : Config)) = some c
  rw [readUint32_writeUint32 _ _ hn]
  simp only
  rw [hjoin]
  simp only
  rw [hback]
  rfl

/-- Role of a replica (the state constants of the source). -/
inductive Role where
  | Follower
  | Candidate
  | Leader
deriving DecidableEq, Repr

/-- Pair of configurations tracked by every replica (config.go). -/
structure Configs where
  Committed : Config
  Latest : Config
deriving DecidableEq, Repr

/-- Replica state, as read and written by the handlers under proof:
current term, votedFor, known leader, role, log, commitIndex, the
leader's startIndex and the configuration pair. The writes field traces
every storage.SetVars persistence call as a (term, votedFor) pair. -/
structure RaftState where
  term : Nat
  votedFor : String
  leader : String
  role : Role
  log : List Entry
  commitIndex : Nat
  startIndex : Nat
  configs : Configs
  writes : List (Nat × String)
deriving DecidableEq, Repr

/-- Modelled from the spec: the log store keeps contiguous entries from
index 1, so the entry with index i sits at position i-1; lastIndex is
the length. The log wrapper itself is not under src. -/
def lastLogIndex (s : RaftState) : Nat := s.log.length

/-- Modelled from the spec: term of the last entry, 0 for an empty log. -/
def lastLogTerm (s : RaftState) : Nat := (s.log.getLast?.map Entry.term).getD 0

/-- Modelled from the spec: log.getEntry for an index present in the log. -/
def getEntry (s : RaftState) (i : Nat) : Entry := s.log.getD (i - 1) default

/-- Modelled from the spec: log.deleteGTE removes all entries with index
at least i. -/
def deleteGTE (s : RaftState) (i : Nat) : RaftState :=
  { s with log := s.log.take (i - 1) }

/-- Modelled from the spec: log.append adds one entry at the tail. -/
def appendLog (s : RaftState) (e : Entry) : RaftState :=
  { s with log := s.log ++ [e] }

/-- Raft.setTerm from raft.go: persists (term, "") and resets votedFor. -/
def setTerm (s : RaftState) (t : Nat) : RaftState :=
  { s with term := t, votedFor := "", writes := s.writes ++ [(t, "")] }

/-- Raft.setVotedFor from raft.go: persists (r.term, v). -/
def setVotedFor (s : RaftState) (v : String) : RaftState :=
  { s with votedFor := v, writes := s.writes ++ [(s.term, v)] }

/-- Raft.changeConfig from config.go: committed becomes the previous
latest and latest becomes the given config. -/
def changeConfig (s : RaftState) (c : Config) : RaftState :=
  { s with configs := ⟨s.configs.Latest, c⟩ }

/-- Raft.commitConfig from config.go: committed becomes latest. -/
def commitConfig (s : RaftState) : RaftState :=
  { s with configs := ⟨s.configs.Latest, s.configs.Latest⟩ }

/-- Raft.revertConfig from config.go: latest reverts to committed. -/
def revertConfig (s : RaftState) : RaftState :=
  { s with configs := ⟨s.configs.Committed, s.configs.Committed⟩ }

/-- Configs.IsCommitted from config.go. -/
def Configs.IsCommitted (c : Configs) : Bool := c.Latest.Index == c.Committed.Index

/-- Raft.setCommitIndex from config.go, restricted to its commit-index
and configuration effects (the source additionally steps a leader that
lost its voter status down to follower and may shut down on removal,
which none of the claims under proof concern). -/
def setCommitIndex (s : RaftState) (i : Nat) : RaftState :=
  if ¬ s.configs.IsCommitted ∧ s.configs.Latest.Index ≤ i then
    commitConfig { s with commitIndex := i }
  else { s with commitIndex := i }

/-- voteRequest message. -/
structure VoteReq where
  term : Nat
  candidate : String
  lastLogIndex : Nat
  lastLogTerm : Nat
deriving DecidableEq, Repr

/-- voteResponse message. -/
structure VoteResp where
  term : Nat
  granted : Bool
deriving DecidableEq, Repr

/-- Raft.onVoteRequest from rpc.go: term rule, known-leader rule,
repeated-vote rule, then the log up-to-date rule with a persisted grant.
The response carries the replica's term at entry, as in the source,
where the response struct is built before any term update. -/
def onVoteRequest (s0 : RaftState) (req : VoteReq) : RaftState × VoteResp :=
  let resp : VoteResp := ⟨s0.term, false⟩
  if req.term < s0.term then (s0, resp)
  else
    let s := if s0.term < req.term then setTerm { s0 with role := Role.Follower } req.term
      else s0
    if s.leader ≠ "" then (s, { resp with granted := req.candidate == s.leader })
    else if s.votedFor ≠ "" then (s, { resp with granted := s.votedFor == req.candidate })
    else if req.lastLogTerm < lastLogTerm s ∨
        (lastLogTerm s = req.lastLogTerm ∧ req.lastLogIndex < lastLogIndex s) then
      (s, resp)
    else
      (setVotedFor s req.candidate, { resp with granted := true })

/-- Replica state of the related earlier revision (its raft.go), as far
as its Raft.requestVote reads it: term, votedFor, leaderID and the last
log position; writes traces storage.SetVars calls as in RaftState. -/
structure RaftV2 where
  term : Nat
  votedFor : String
  leaderID : String
  lastLogIndex : Nat
  lastLogTerm : Nat
  writes : List (Nat × String)
deriving DecidableEq, Repr

/-- setVotedFor of the earlier revision: persists (r.term, v). -/
def RaftV2.setVotedFor (s : RaftV2) (v : String) : RaftV2 :=
  { s with votedFor := v, writes := s.writes ++ [(s.term, v)] }

/-- Raft.requestVote from the earlier rpc.go revision, translated switch
case by switch case: the first case of the up-to-date switch (receiver's
last log term greater than the candidate's) has an empty body in the
source, so control falls out of the switch and reaches the grant path. -/
def requestVote (s : RaftV2) (req : VoteReq) : RaftV2 × VoteResp :=
  let resp : VoteResp := ⟨s.term, false⟩
  if req.term < s.term then (s, resp)
  else if s.votedFor ≠ "" then (s, { resp with granted := s.votedFor == req.candidate })
  else if req.lastLogTerm < s.lastLogTerm then
    (s.setVotedFor req.candidate, { resp with granted := true })
  else if s.lastLogTerm = req.lastLogTerm ∧ req.lastLogIndex < s.lastLogIndex then
    (s, resp)
  else
    (s.setVotedFor req.candidate, { resp with granted := true })

/-- C4: with req.term equal to the replica's current term and a known
leader for that term, onVoteRequest grants the vote exactly when the
candidate is that leader, regardless of votedFor and of the log
up-to-date comparison. -/
theorem vote_known_leader_spec (s : RaftState) (req : VoteReq)
    (hterm : req.term = s.term) (hldr : s.leader ≠ "") :
    (onVoteRequest s req).2.granted = true ↔ req.candidate = s.leader := by
  simp [onVoteRequest, hterm, hldr, lt_irrefl]

/-- C10: when onVoteRequest grants because the replica knows a leader
for its current term and the candidate is that leader, votedFor is left
unchanged and no persistence call is made on that path. -/
theorem vote_known_leader_frame_spec (s : RaftState) (req : VoteReq)
    (hterm : req.term = s.term) (hldr : s.leader ≠ "")
    (hc : req.candidate = s.leader) :
    (onVoteRequest s req).2.granted = true ∧
    (onVoteRequest s req).1.votedFor = s.votedFor ∧
    (onVoteRequest s req).1.writes = s.writes := by
  simp [onVoteRequest, hterm, hldr, hc, lt_irrefl]

/-- Concrete replica of the earlier revision: term 3, no leader known,
votedFor unset, last log entry at index 5 with term 2. -/
def buggyVoter : RaftV2 := ⟨3, "", "", 5, 2, []⟩

/-- Concrete vote request with the replica's term but a less up-to-date
log: last log term 1 at index 9. -/
def staleCandReq : VoteReq := ⟨3, "C:8888", 9, 1⟩

/-- C3, failing input: the earlier revision's Raft.requestVote grants
and persists the vote although the receiver's last log term (2) exceeds
the candidate's (1); the claim, the spec and the function's own comment
require rejection here. The switch case guarding this situation has an
empty body, so control falls through to the grant path. -/
theorem requestVote_uptodate_bug :
    (requestVote buggyVoter staleCandReq).2.granted = true ∧
    staleCandReq.lastLogTerm < buggyVoter.lastLogTerm ∧
    staleCandReq.term = buggyVoter.term ∧
    buggyVoter.votedFor = "" ∧ buggyVoter.leaderID = "" ∧
    (requestVote buggyVoter staleCandReq).1.votedFor = staleCandReq.candidate ∧
    (requestVote buggyVoter staleCandReq).1.writes = [(3, "C:8888")] := by
  decide

/-- The current revision's Raft.onVoteRequest, in contrast, does follow
the up-to-date rule: with an equal term, no known leader and votedFor
unset, it rejects exactly when the receiver's log is more up-to-date,
and on grant persists (term, candidate). -/
theorem onVoteRequest_uptodate (s : RaftState) (req : VoteReq)
    (hterm : req.term = s.term) (hldr : s.leader = "") (hvf : s.votedFor = "") :
    ((onVoteRequest s req).2.granted = false ↔
      (req.lastLogTerm < lastLogTerm s ∨
        (lastLogTerm s = req.lastLogTerm ∧ req.lastLogIndex < lastLogIndex s))) ∧
    ((onVoteRequest s req).2.granted = true →
      (onVoteRequest s req).1.writes = s.writes ++ [(s.term, req.candidate)]) := by
  by_cases hcond : req.lastLogTerm < lastLogTerm s ∨
      (lastLogTerm s = req.lastLogTerm ∧ req.lastLogIndex < lastLogIndex s)
  · simp [onVoteRequest, hterm, hldr, hvf, lt_irrefl, hcond]
  · simp [onVoteRequest, hterm, hldr, hvf, lt_irrefl, hcond, setVotedFor]

/-- appendEntriesRequest message. -/
structure AppendReq where
  term : Nat
  leader : String
  prevLogIndex : Nat
  prevLogTerm : Nat
  ldrCommitIndex : Nat
  entries : List Entry
deriving DecidableEq, Repr

/-- appendEntriesResponse message. -/
structure AppendResp where
  term : Nat
  success : Bool
  lastLogIndex : Nat
deriving DecidableEq, Repr

/-- Conflict scan of Raft.onAppendEntriesRequest: entries already in the
log with matching terms are skipped; the first entry beyond the log
starts the new suffix; a term conflict truncates the log from that index
on, reverting the configuration when the truncation reaches
configs.latest, and starts the new suffix there. Returns the updated
state and the newEntries slice. -/
def scanEntries (s : RaftState) : List Entry → RaftState × List Entry
  | [] => (s, [])
  | ne :: rest =>
    if lastLogIndex s < ne.index then (s, ne :: rest)
    else if (getEntry s ne.index).term ≠ ne.term then
      let s1 := deleteGTE s ne.index
      (if ne.index ≤ s1.configs.Latest.Index then revertConfig s1 else s1, ne :: rest)
    else scanEntries s rest

/-- Config handling inside the append loop of Raft.onAppendEntriesRequest:
an appended entryConfig entry is decoded and applied with changeConfig.
The source panics when decoding fails; that branch leaves the state
unchanged here and is never exercised below. -/
def applyConfigEntry (s : RaftState) (e : Entry) : RaftState :=
  if e.typ = EntryType.config then
    match Config.decode e with
    | some c => changeConfig s c
    | none => s
  else s

/-- Append loop of Raft.onAppendEntriesRequest over the newEntries
slice. -/
def appendNewEntries (s : RaftState) : List Entry → RaftState
  | [] => s
  | e :: rest => appendNewEntries (applyConfigEntry (appendLog s e) e) rest

/-- Entry processing of Raft.onAppendEntriesRequest: skipped entirely
for an empty entries slice, otherwise the conflict scan followed by the
append loop. -/
def handleEntries (s : RaftState) (entries : List Entry) : RaftState :=
  match entries with
  | [] => s
  | _ => appendNewEntries (scanEntries s entries).1 (scanEntries s entries).2

/-- Raft.lastLog from rpc.go: index and term of the last entry of the
request, or the prev pair when the request carries no entries. -/
def lastLog (req : AppendReq) : Nat × Nat :=
  match req.entries.getLast? with
  | none => (req.prevLogIndex, req.prevLogTerm)
  | some last => (last.index, last.term)

/-- Consistency check of Raft.onAppendEntriesRequest: a positive
prevLogIndex must be within the log and carry prevLogTerm, read from
lastLogTerm when it is the last index and from the stored entry
otherwise. -/
def consistencyOK (s : RaftState) (req : AppendReq) : Prop :=
  0 < req.prevLogIndex →
    req.prevLogIndex ≤ lastLogIndex s ∧
      req.prevLogTerm = (if req.prevLogIndex = lastLogIndex s then lastLogTerm s
        else (getEntry s req.prevLogIndex).term)

instance (s : RaftState) (req : AppendReq) : Decidable (consistencyOK s req) := by
  unfold consistencyOK
  infer_instance

/-- Term-rule and leader-adoption prefix of Raft.onAppendEntriesRequest:
a newer term or a non-follower role converts the replica to a follower
of the request's term, and the sender is adopted as leader. -/
def afterTermLeader (s0 : RaftState) (req : AppendReq) : RaftState :=
  if s0.term < req.term ∨ s0.role ≠ Role.Follower then
    { setTerm { s0 with role := Role.Follower } req.term with leader := req.leader }
  else { s0 with leader := req.leader }

/-- Commit rule of Raft.onAppendEntriesRequest: with lastIndex and
lastTerm taken from the request, commitIndex advances to
min(ldrCommitIndex, lastIndex) exactly when lastTerm equals the
request's term and ldrCommitIndex exceeds commitIndex. -/
def commitStep (s : RaftState) (req : AppendReq) : RaftState :=
  if (lastLog req).2 = req.term ∧ s.commitIndex < req.ldrCommitIndex then
    { s with commitIndex := min req.ldrCommitIndex (lastLog req).1 }
  else s

/-- Raft.onAppendEntriesRequest from rpc.go: term rule, follower
conversion, leader adoption, consistency check, conflict handling and
append, then the commit rule. The response carries the replica's term at
entry, and its lastLogIndex after entry processing when the request had
entries. -/
def onAppendEntriesRequest (s0 : RaftState) (req : AppendReq) :
    RaftState × AppendResp :=
  if req.term < s0.term then (s0, ⟨s0.term, false, lastLogIndex s0⟩)
  else if ¬ consistencyOK (afterTermLeader s0 req) req then
    (afterTermLeader s0 req, ⟨s0.term, false, lastLogIndex s0⟩)
  else
    (commitStep (handleEntries (afterTermLeader s0 req) req.entries) req,
      ⟨s0.term, true,
        if req.entries.isEmpty then lastLogIndex s0
        else lastLogIndex (handleEntries (afterTermLeader s0 req) req.entries)⟩)

theorem afterTermLeader_log (s0 : RaftState) (req : AppendReq) :
    (afterTermLeader s0 req).log = s0.log := by
  unfold afterTermLeader setTerm
  by_cases h : s0.term < req.term ∨ s0.role ≠ Role.Follower <;> simp [h]

theorem afterTermLeader_commitIndex (s0 : RaftState) (req : AppendReq) :
    (afterTermLeader s0 req).commitIndex = s0.commitIndex := by
  unfold afterTermLeader setTerm
  by_cases h : s0.term < req.term ∨ s0.role ≠ Role.Follower <;> simp [h]

theorem afterTermLeader_configs (s0 : RaftState) (req : AppendReq) :
    (afterTermLeader s0 req).configs = s0.configs := by
  unfold afterTermLeader setTerm
  by_cases h : s0.term < req.term ∨ s0.role ≠ Role.Follower <;> simp [h]

theorem consistencyOK_congr (s t : RaftState) (req : AppendReq) (h : s.log = t.log) :
    consistencyOK s req ↔ consistencyOK t req := by
  unfold consistencyOK lastLogIndex lastLogTerm getEntry
  rw [h]

theorem applyConfigEntry_commitIndex (s : RaftState) (e : Entry) :
    (applyConfigEntry s e).commitIndex = s.commitIndex := by
  unfold applyConfigEntry
  by_cases ht : e.typ = EntryType.config
  · simp only [if_pos ht]
    cases Config.decode e <;> simp [changeConfig]
  · simp [ht]

theorem appendNewEntries_commitIndex (s : RaftState) (es : List Entry) :
    (appendNewEntries s es).commitIndex = s.commitIndex := by
  induction es generalizing s with
  | nil => rfl
  | cons e rest ih =>
    show (appendNewEntries (applyConfigEntry (appendLog s e) e) rest).commitIndex
      = s.commitIndex
    rw [ih, applyConfigEntry_commitIndex]
    rfl

theorem scanEntries_commitIndex (s : RaftState) (es : List Entry) :
    (scanEntries s es).1.commitIndex = s.commitIndex := by
  induction es generalizing s with
  | nil => rfl
  | cons ne rest ih =>
    by_cases h1 : lastLogIndex s < ne.index
    · simp [scanEntries, h1]
    · by_cases h2 : (getEntry s ne.index).term ≠ ne.term
      · simp only [scanEntries, if_neg h1, if_pos h2]
        split <;> rfl
      · simp [scanEntries, h1, h2, ih]

theorem handleEntries_commitIndex (s : RaftState) (es : List Entry) :
    (handleEntries s es).commitIndex = s.commitIndex := by
  cases es with
  | nil => rfl
  | cons e rest =>
    show (appendNewEntries (scanEntries s (e :: rest)).1
      (scanEntries s (e :: rest)).2).commitIndex = s.commitIndex
    rw [appendNewEntries_commitIndex, scanEntries_commitIndex]

/-- C2: when a request passes the term check and the consistency check,
the receiver sets commitIndex to min(ldrCommitIndex, lastIndex), with
lastIndex and lastTerm taken from the request's last entry (or the prev
pair when there are no entries), exactly when lastTerm equals the
request's term and ldrCommitIndex exceeds commitIndex; otherwise
commitIndex is unchanged. -/
theorem append_commit_advance_spec (s : RaftState) (req : AppendReq)
    (hterm : ¬ req.term < s.term) (hcons : consistencyOK s req) :
    ((lastLog req).2 = req.term ∧ s.commitIndex < req.ldrCommitIndex →
      (onAppendEntriesRequest s req).1.commitIndex
        = min req.ldrCommitIndex (lastLog req).1) ∧
    (¬ ((lastLog req).2 = req.term ∧ s.commitIndex < req.ldrCommitIndex) →
      (onAppendEntriesRequest s req).1.commitIndex = s.commitIndex) := by
  have hcons2 : consistencyOK (afterTermLeader s req) req :=
    (consistencyOK_congr _ _ req (afterTermLeader_log s req)).mpr hcons
  have hci : (handleEntries (afterTermLeader s req) req.entries).commitIndex
      = s.commitIndex := by
    rw [handleEntries_commitIndex, afterTermLeader_commitIndex]
  unfold onAppendEntriesRequest
  rw [if_neg hterm, if_neg (not_not_intro hcons2)]
  unfold commitStep
  constructor
  · intro hcond
    rw [if_pos (by rw [hci]; exact hcond)]
  · intro hcond
    rw [if_neg (by rw [hci]; exact hcond)]
    exact hci

theorem scanEntries_conflict (s : RaftState) (entries : List Entry) (j : Nat)
    (hj : j < entries.length)
    (hskip : ∀ k, k < j → (entries.getD k default).index ≤ lastLogIndex s ∧
      (getEntry s (entries.getD k default).index).term = (entries.getD k default).term)
    (hin : (entries.getD j default).index ≤ lastLogIndex s)
    (hcf : (getEntry s (entries.getD j default).index).term ≠ (entries.getD j default).term) :
    scanEntries s entries =
      (if (entries.getD j default).index ≤ s.configs.Latest.Index then
        revertConfig (deleteGTE s (entries.getD j default).index)
      else deleteGTE s (entries.getD j default).index, entries.drop j) := by
  induction entries generalizing j with
  | nil => exact absurd hj (Nat.not_lt_zero j)
  | cons ne rest ih =>
    cases j with
    | zero =>
      simp only [List.getD_cons_zero] at hin hcf
      have h1 : ¬ lastLogIndex s < ne.index := not_lt.mpr hin
      simp only [scanEntries, if_neg h1, if_pos hcf, List.drop_zero,
        List.getD_cons_zero]
      rfl
    | succ j =>
      have hsk0 := hskip 0 (Nat.succ_pos j)
      simp only [List.getD_cons_zero] at hsk0
      have h1 : ¬ lastLogIndex s < ne.index := not_lt.mpr hsk0.1
      have h2 : ¬ (getEntry s ne.index).term ≠ ne.term := not_not_intro hsk0.2
      simp only [List.getD_cons_succ] at hin hcf
      simp only [scanEntries, if_neg h1, if_neg h2, List.drop_succ_cons]
      exact ih j (Nat.lt_of_succ_lt_succ (by simpa using hj))
        (fun k hk => by
          have := hskip (k + 1) (Nat.succ_lt_succ hk)
          simpa using this) hin hcf

/-- C5: when the first not-yet-stored entry of the request conflicts
with the stored entry at its index (same index, different term), the
receiver's entry processing truncates the log from that index onward,
reverts configs.latest to configs.committed exactly when the conflict
index is at or below configs.latest.index, and only then appends the
remaining entries of the request. -/
theorem conflict_truncation_spec (s : RaftState) (entries : List Entry) (j : Nat)
    (hj : j < entries.length)
    (hskip : ∀ k, k < j → (entries.getD k default).index ≤ lastLogIndex s ∧
      (getEntry s (entries.getD k default).index).term = (entries.getD k default).term)
    (hin : (entries.getD j default).index ≤ lastLogIndex s)
    (hcf : (getEntry s (entries.getD j default).index).term ≠ (entries.getD j default).term) :
    (scanEntries s entries).1.log = s.log.take ((entries.getD j default).index - 1) ∧
    (scanEntries s entries).1.configs.Latest =
      (if (entries.getD j default).index ≤ s.configs.Latest.Index then s.configs.Committed
        else s.configs.Latest) ∧
    (scanEntries s entries).1.configs.Committed = s.configs.Committed ∧
    (scanEntries s entries).2 = entries.drop j ∧
    handleEntries s entries
      = appendNewEntries (scanEntries s entries).1 (entries.drop j) := by
  have hscan := scanEntries_conflict s entries j hj hskip hin hcf
  have hne : entries ≠ [] := List.ne_nil_of_length_pos (Nat.lt_of_le_of_lt (Nat.zero_le j) hj)
  refine ⟨?_, ?_, ?_, ?_, ?_⟩
  · rw [hscan]
    split <;> rfl
  · rw [hscan]
    split <;> simp_all [revertConfig, deleteGTE]
  · rw [hscan]
    split <;> rfl
  · rw [hscan]
  · cases entries with
    | nil => exact absurd rfl hne
    | cons e rest =>
      show appendNewEntries (scanEntries s (e :: rest)).1 (scanEntries s (e :: rest)).2
        = _
      rw [hscan]

/-- Concrete config at index 1 (committed) for the C6 counterexample. -/
def cfgAt1 : Config := ⟨[], 1, 1⟩

/-- Concrete config at index 5 (latest, not yet committed). -/
def cfgAt5 : Config := ⟨[], 5, 1⟩

/-- Follower with seven log entries of term 1, commitIndex 4, committed
config at index 1 and an uncommitted latest config at index 5. -/
def lagFollower : RaftState :=
  ⟨1, "", "", Role.Follower,
    [⟨.user, 1, 1, []⟩, ⟨.user, 2, 1, []⟩, ⟨.user, 3, 1, []⟩, ⟨.user, 4, 1, []⟩,
      ⟨.user, 5, 1, []⟩, ⟨.user, 6, 1, []⟩, ⟨.user, 7, 1, []⟩],
    4, 0, ⟨cfgAt1, cfgAt5⟩, []⟩

/-- Config entry at index 8 whose data decodes to an empty node set. -/
def cfgEntry8 : Entry := ⟨.config, 8, 1, [0, 0, 0, 0]⟩

/-- AppendEntries request of the same term appending the config entry at
index 8, with ldrCommitIndex 4 (no commit advance). -/
def appendCfgReq : AppendReq := ⟨1, "L:8888", 7, 1, 4, [cfgEntry8]⟩

/-- C6 counterexample: on this follower, appending a further config
entry advances configs.committed from index 1 to index 5 although no
entry committed in the call (commitIndex stays 4, below 5): committed
advanced merely on append, and the claimed invariant that committed
advances only when the config entry commits fails on the code. -/
theorem committed_advance_on_append_cex :
    lagFollower.configs.Committed.Index = 1 ∧ lagFollower.commitIndex = 4 ∧
    (onAppendEntriesRequest lagFollower appendCfgReq).1.configs.Committed.Index = 5 ∧
    (onAppendEntriesRequest lagFollower appendCfgReq).1.commitIndex = 4 ∧
    ¬ (onAppendEntriesRequest lagFollower appendCfgReq).1.configs.Committed.Index
        ≤ (onAppendEntriesRequest lagFollower appendCfgReq).1.commitIndex := by
  decide

/-- C6 amended: every configuration operation preserves
committed.index ≤ latest.index (changeConfig under the precondition
that the appended config's index is no smaller than latest's);
on append, latest becomes the appended config while committed becomes
the previous latest, which can advance committed past commitIndex when
the previous latest was uncommitted; and setCommitIndex advances
committed to latest exactly when latest.index is at most the new
commitIndex. -/
theorem configs_invariant_amended (s : RaftState) (c : Config) (i : Nat)
    (hinv : s.configs.Committed.Index ≤ s.configs.Latest.Index)
    (hc : s.configs.Latest.Index ≤ c.Index) :
    (changeConfig s c).configs.Latest = c ∧
    (changeConfig s c).configs.Committed = s.configs.Latest ∧
    (changeConfig s c).configs.Committed.Index
      ≤ (changeConfig s c).configs.Latest.Index ∧
    (∀ e cnew, Config.decode e = some cnew →
      (applyConfigEntry s e).configs.Latest = cnew ∧
      (applyConfigEntry s e).configs.Committed = s.configs.Latest) ∧
    (commitConfig s).configs.Committed.Index
      ≤ (commitConfig s).configs.Latest.Index ∧
    (revertConfig s).configs.Committed.Index
      ≤ (revertConfig s).configs.Latest.Index ∧
    (s.configs.Latest.Index ≤ i →
      (setCommitIndex s i).configs.Committed.Index = s.configs.Latest.Index) ∧
    (¬ s.configs.Latest.Index ≤ i →
      (setCommitIndex s i).configs.Committed = s.configs.Committed) ∧
    (setCommitIndex s i).configs.Committed.Index
      ≤ (setCommitIndex s i).configs.Latest.Index := by
  refine ⟨rfl, rfl, hc, ?_, le_rfl, le_rfl, ?_, ?_, ?_⟩
  · intro e cnew hdec
    have htyp : e.typ = EntryType.config := by
      by_contra htyp
      simp [Config.decode, htyp] at hdec
    unfold applyConfigEntry
    rw [if_pos htyp, hdec]
    exact ⟨rfl, rfl⟩
  · intro hle
    unfold setCommitIndex
    by_cases hcm : s.configs.IsCommitted
    · rw [if_neg (by simp [hcm])]
      have hEq : s.configs.Latest.Index = s.configs.Committed.Index := by
        simpa [Configs.IsCommitted] using hcm
      simpa using hEq.symm
    · rw [if_pos (by simp [hcm, hle])]
      rfl
  · intro hle
    unfold setCommitIndex
    rw [if_neg (by simp [hle])]
  · unfold setCommitIndex
    by_cases hcond : ¬ s.configs.IsCommitted = true ∧ s.configs.Latest.Index ≤ i
    · rw [if_pos hcond]
      exact le_rfl
    · rw [if_neg hcond]
      exact hinv

/-- Decreasing order on matchIndex values, the Less relation of
decrUint64Slice in leader.go. -/
def geRel (a b : Nat) : Prop := b ≤ a

instance : DecidableRel geRel := fun a b => Nat.decLe b a

instance : IsTotal Nat geRel := ⟨fun a b => Nat.le_total b a⟩

instance : IsTrans Nat geRel := ⟨fun _ _ _ h1 h2 => Nat.le_trans h2 h1⟩

/-- sort.Sort over decrUint64Slice from leader.go: sorts the values in
decreasing order. -/
def sortDesc (l : List Nat) : List Nat := l.insertionSort geRel

/-- Voters' matchIndex values as collected by majorityMatchIndex: one
value per voter of the config, read from the replicator statuses
(modelled by matchOf, the map from node id to that node's matchIndex). -/
def votersMatched (c : Config) (matchOf : Nat → Nat) : List Nat :=
  ((c.Nodes.map Prod.snd).filter fun n => n.Voter).map fun n => matchOf n.ID

/-- ldrShip.majorityMatchIndex from leader.go: the single voter's value
for a one-voter config, otherwise the value at position quorum-1 of the
voters' matchIndex values sorted in decreasing order, with
quorum = numVoters/2+1. -/
def majorityMatchIndex (c : Config) (matchOf : Nat → Nat) : Nat :=
  let matched := votersMatched c matchOf
  if matched.length = 1 then matched.headD 0
  else (sortDesc matched).getD (matched.length / 2 + 1 - 1) 0

/-- ldrShip.onMajorityCommit from leader.go: when majorityMatchIndex
exceeds commitIndex and is at least startIndex, the leader moves
commitIndex there via setCommitIndex; otherwise nothing changes
(applyCommitted and the replicator notification are not modelled). -/
def onMajorityCommit (s : RaftState) (matchOf : Nat → Nat) : RaftState :=
  if s.commitIndex < majorityMatchIndex s.configs.Latest matchOf ∧
      s.startIndex ≤ majorityMatchIndex s.configs.Latest matchOf then
    setCommitIndex s (majorityMatchIndex s.configs.Latest matchOf)
  else s

theorem setCommitIndex_commitIndex (s : RaftState) (i : Nat) :
    (setCommitIndex s i).commitIndex = i := by
  unfold setCommitIndex
  split <;> rfl

theorem sortDesc_getD_head (a : Nat) : sortDesc [a] = [a] := rfl

theorem sortDesc_quorum_count (l : List Nat) (hl : l ≠ []) :
    l.length / 2 + 1
      ≤ (l.filter fun m => decide ((sortDesc l).getD (l.length / 2 + 1 - 1) 0 ≤ m)).length := by
  have hperm : List.Perm (sortDesc l) l := List.perm_insertionSort geRel l
  have hsorted : List.Sorted geRel (sortDesc l) := List.sorted_insertionSort geRel l
  have hlen : (sortDesc l).length = l.length := hperm.length_eq
  have hpos : 0 < l.length := List.length_pos.mpr hl
  have hq : l.length / 2 + 1 ≤ l.length := Nat.div_lt_self hpos one_lt_two
  have hi : l.length / 2 < (sortDesc l).length := by omega
  have htake : ∀ x ∈ (sortDesc l).take (l.length / 2 + 1),
      (fun m => decide ((sortDesc l).getD (l.length / 2 + 1 - 1) 0 ≤ m)) x = true := by
    intro x hx
    obtain ⟨ix, hix, hxe⟩ := List.getElem_of_mem hx
    rw [List.length_take] at hix
    have hixq : ix < l.length / 2 + 1 := lt_of_lt_of_le hix (min_le_left _ _)
    have hixl : ix < (sortDesc l).length := by omega
    have hxv : (sortDesc l)[ix] = x := by
      rw [← hxe, List.getElem_take]
    have hN : (sortDesc l).getD (l.length / 2 + 1 - 1) 0 = (sortDesc l)[l.length / 2] := by
      simp only [Nat.add_sub_cancel]
      exact List.getD_eq_getElem _ _ hi
    simp only [decide_eq_true_eq, hN, ← hxv]
    rcases Nat.lt_or_ge ix (l.length / 2) with hlt | hge
    · have hrel := hsorted.rel_get_of_lt
        (show (⟨ix, hixl⟩ : Fin (sortDesc l).length) < ⟨l.length / 2, hi⟩ from hlt)
      simpa [List.get_eq_getElem] using hrel
    · have hEq : ix = l.length / 2 := by omega
      simp [hEq]
  have hcount : l.length / 2 + 1 ≤ (sortDesc l).countP
      fun m => decide ((sortDesc l).getD (l.length / 2 + 1 - 1) 0 ≤ m) := by
    have htlen : ((sortDesc l).take (l.length / 2 + 1)).length = l.length / 2 + 1 := by
      rw [List.length_take]
      omega
    have hfull : (((sortDesc l).take (l.length / 2 + 1)).countP
        fun m => decide ((sortDesc l).getD (l.length / 2 + 1 - 1) 0 ≤ m))
        = ((sortDesc l).take (l.length / 2 + 1)).length :=
      List.countP_eq_length.mpr htake
    have hsub := (List.take_sublist (l.length / 2 + 1) (sortDesc l)).countP_le
      (fun m => decide ((sortDesc l).getD (l.length / 2 + 1 - 1) 0 ≤ m))
    omega
  have htrans : ((sortDesc l).countP
      fun m => decide ((sortDesc l).getD (l.length / 2 + 1 - 1) 0 ≤ m))
      = l.countP fun m => decide ((sortDesc l).getD (l.length / 2 + 1 - 1) 0 ≤ m) :=
    hperm.countP_eq _
  rw [← List.countP_eq_length_filter]
  omega

/-- C1: on the leader, majorityMatchIndex is the value at position
quorum-1 of the voters' matchIndex values sorted in decreasing order, at
least quorum voters have matchIndex at least that value N, and
onMajorityCommit moves commitIndex to N exactly when N exceeds
commitIndex and is at least startIndex, leaving it unchanged
otherwise. -/
theorem majority_commit_spec (s : RaftState) (matchOf : Nat → Nat)
    (hne : votersMatched s.configs.Latest matchOf ≠ []) :
    majorityMatchIndex s.configs.Latest matchOf
      = (sortDesc (votersMatched s.configs.Latest matchOf)).getD
          ((votersMatched s.configs.Latest matchOf).length / 2 + 1 - 1) 0 ∧
    (votersMatched s.configs.Latest matchOf).length / 2 + 1
      ≤ ((votersMatched s.configs.Latest matchOf).filter
          fun m => decide (majorityMatchIndex s.configs.Latest matchOf ≤ m)).length ∧
    (s.commitIndex < majorityMatchIndex s.configs.Latest matchOf ∧
        s.startIndex ≤ majorityMatchIndex s.configs.Latest matchOf →
      (onMajorityCommit s matchOf).commitIndex
        = majorityMatchIndex s.configs.Latest matchOf) ∧
    (¬ (s.commitIndex < majorityMatchIndex s.configs.Latest matchOf ∧
        s.startIndex ≤ majorityMatchIndex s.configs.Latest matchOf) →
      (onMajorityCommit s matchOf).commitIndex = s.commitIndex) := by
  have hpos : (if (votersMatched s.configs.Latest matchOf).length = 1
      then (votersMatched s.configs.Latest matchOf).headD 0
      else (sortDesc (votersMatched s.configs.Latest matchOf)).getD
        ((votersMatched s.configs.Latest matchOf).length / 2 + 1 - 1) 0)
      = (sortDesc (votersMatched s.configs.Latest matchOf)).getD
          ((votersMatched s.configs.Latest matchOf).length / 2 + 1 - 1) 0 := by
    by_cases h1 : (votersMatched s.configs.Latest matchOf).length = 1
    · obtain ⟨a, ha⟩ := List.length_eq_one.mp h1
      rw [if_pos h1, ha, sortDesc_getD_head]
      simp
    · rw [if_neg h1]
  have hmmi : majorityMatchIndex s.configs.Latest matchOf
      = (sortDesc (votersMatched s.configs.Latest matchOf)).getD
          ((votersMatched s.configs.Latest matchOf).length / 2 + 1 - 1) 0 := hpos
  refine ⟨hmmi, ?_, ?_, ?_⟩
  · rw [hmmi]
    exact sortDesc_quorum_count _ hne
  · intro hcond
    unfold onMajorityCommit
    rw [if_pos hcond, setCommitIndex_commitIndex]
  · intro hcond
    unfold onMajorityCommit
    rw [if_neg hcond]

/-- ldrShip.storeEntry from leader.go, restricted to its log effect: the
entry is stamped with index lastLogIndex+1 and the leader's term, then
appended to the durable log unless it is a query or barrier entry
(those only enter the in-memory queue, which is not modelled). -/
def storeEntry (s : RaftState) (typ : EntryType) (data : List Nat) : RaftState :=
  if typ ≠ EntryType.query ∧ typ ≠ EntryType.barrier then
    appendLog s ⟨typ, lastLogIndex s + 1, s.term, data⟩
  else s

/-- ldrShip.init from leader.go, restricted to its state effects:
records startIndex := lastLogIndex + 1 and stores the no-op entry of
the new term (lease timer and replicators are not modelled). -/
def ldrInit (s : RaftState) : RaftState :=
  storeEntry { s with startIndex := lastLogIndex s + 1 } EntryType.nop []

/-- C7: on becoming leader for term T, startIndex is recorded as
lastLogIndex+1, the first entry appended in term T is a noop entry at
index startIndex with term T, and right after init the noop is the only
entry of term T and sits at the log's tail, so every entry stored later
in the term gets a strictly higher index. -/
theorem leader_noop_first_spec (s : RaftState)
    (hfresh : ∀ e ∈ s.log, e.term < s.term) :
    (ldrInit s).startIndex = lastLogIndex s + 1 ∧
    (ldrInit s).log = s.log ++ [⟨EntryType.nop, lastLogIndex s + 1, s.term, []⟩] ∧
    lastLogIndex (ldrInit s) = (ldrInit s).startIndex ∧
    (∀ e ∈ (ldrInit s).log, e.term = s.term →
      e.index = (ldrInit s).startIndex ∧ e.typ = EntryType.nop) := by
  have hinit : ldrInit s
      = { s with
          startIndex := lastLogIndex s + 1
          log := s.log ++ [⟨EntryType.nop, lastLogIndex s + 1, s.term, []⟩] } := by
    unfold ldrInit storeEntry appendLog
    rw [if_pos (show EntryType.nop ≠ EntryType.query ∧ EntryType.nop ≠ EntryType.barrier
      from by decide)]
    rfl
  rw [hinit]
  refine ⟨rfl, rfl, ?_, ?_⟩
  · show (s.log ++ [(⟨EntryType.nop, lastLogIndex s + 1, s.term, []⟩ : Entry)]).length
      = lastLogIndex s + 1
    simp [lastLogIndex]
  · intro e he hterm
    rcases List.mem_append.mp he with hmem1 | hmem2
    · exact absurd hterm (Nat.ne_of_lt (hfresh e hmem1))
    · have heq : e = ⟨EntryType.nop, lastLogIndex s + 1, s.term, []⟩ :=
        List.mem_singleton.mp hmem2
      subst heq
      exact ⟨rfl, rfl⟩

/-- failureWait from raft.go: 10 milliseconds, in nanoseconds as Go's
time.Duration counts. -/
def failureWait : Nat := 10000000

/-- maxFailureScale from raft.go. -/
def maxFailureScale : Nat := 12

/-- Doubling loop of backoff from raft.go: while power exceeds 2, the
base doubles and power decrements. -/
def backoffLoop : Nat → Nat → Nat
  | base, 0 => base
  | base, 1 => base
  | base, 2 => base
  | base, p + 3 => backoffLoop (base * 2) (p + 2)

/-- backoff from raft.go: failureWait scaled by the failure round,
with the round capped at maxFailureScale. -/
def backoff (round : Nat) : Nat := backoffLoop failureWait (min round maxFailureScale)

theorem backoffLoop_eq : ∀ (p base : Nat), backoffLoop base p = base * 2 ^ (p - 2)
  | 0, base => by simp [backoffLoop]
  | 1, base => by simp [backoffLoop]
  | 2, base => by simp [backoffLoop]
  | p + 3, base => by
    show backoffLoop (base * 2) (p + 2) = base * 2 ^ (p + 3 - 2)
    rw [backoffLoop_eq (p + 2) (base * 2)]
    rw [show p + 2 - 2 = p from by omega, show p + 3 - 2 = p + 1 from by omega, pow_succ]
    ring

/-- C9: for every failure round, backoff returns failureWait (10 ms)
times 2 to the power min(round, 12) - 2 in truncated subtraction: that
is exactly 10 ms for rounds up to 2, doubling once per round from round
3, and capped at 10 ms times 2^10 from round 12 onward. -/
theorem backoff_spec (round : Nat) :
    backoff round = failureWait * 2 ^ (min round maxFailureScale - 2) :=
  backoffLoop_eq (min round maxFailureScale) failureWait

/-- Three-voter configuration used by the concrete witnesses. -/
def threeVoters : Config :=
  ⟨[(1, ⟨1, [97], true, 0⟩), (2, ⟨2, [98], true, 0⟩), (3, ⟨3, [99], true, 0⟩)], 1, 1⟩

/-- Leader over threeVoters, term 2, commitIndex 0, startIndex 1. -/
def smallLeader : RaftState :=
  ⟨2, "", "L:1", Role.Leader, [], 0, 1, ⟨threeVoters, threeVoters⟩, []⟩

/-- matchIndex per node id: node 1 at 7, node 2 at 5, node 3 at 3. -/
def matchOf3 : Nat → Nat := fun i => if i = 1 then 7 else if i = 2 then 5 else 3

theorem majority_commit_spec_witness :
    votersMatched smallLeader.configs.Latest matchOf3 ≠ [] ∧
    (majorityMatchIndex smallLeader.configs.Latest matchOf3
      = (sortDesc (votersMatched smallLeader.configs.Latest matchOf3)).getD
          ((votersMatched smallLeader.configs.Latest matchOf3).length / 2 + 1 - 1) 0 ∧
    (votersMatched smallLeader.configs.Latest matchOf3).length / 2 + 1
      ≤ ((votersMatched smallLeader.configs.Latest matchOf3).filter
          fun m => decide (majorityMatchIndex smallLeader.configs.Latest matchOf3 ≤ m)).length ∧
    (smallLeader.commitIndex < majorityMatchIndex smallLeader.configs.Latest matchOf3 ∧
        smallLeader.startIndex ≤ majorityMatchIndex smallLeader.configs.Latest matchOf3 →
      (onMajorityCommit smallLeader matchOf3).commitIndex
        = majorityMatchIndex smallLeader.configs.Latest matchOf3) ∧
    (¬ (smallLeader.commitIndex < majorityMatchIndex smallLeader.configs.Latest matchOf3 ∧
        smallLeader.startIndex ≤ majorityMatchIndex smallLeader.configs.Latest matchOf3) →
      (onMajorityCommit smallLeader matchOf3).commitIndex = smallLeader.commitIndex)) :=
  ⟨by decide, majority_commit_spec smallLeader matchOf3 (by decide)⟩

/-- Follower with one log entry for the C2 witness. -/
def oneEntryFollower : RaftState :=
  ⟨1, "", "", Role.Follower, [⟨EntryType.user, 1, 1, []⟩], 0, 0,
    ⟨⟨[], 0, 0⟩, ⟨[], 0, 0⟩⟩, []⟩

/-- Heartbeat request of the same term with ldrCommitIndex 1. -/
def hbCommitReq : AppendReq := ⟨1, "L:1", 1, 1, 1, []⟩

theorem append_commit_advance_spec_witness :
    (¬ hbCommitReq.term < oneEntryFollower.term) ∧
    consistencyOK oneEntryFollower hbCommitReq ∧
    (((lastLog hbCommitReq).2 = hbCommitReq.term ∧
        oneEntryFollower.commitIndex < hbCommitReq.ldrCommitIndex →
      (onAppendEntriesRequest oneEntryFollower hbCommitReq).1.commitIndex
        = min hbCommitReq.ldrCommitIndex (lastLog hbCommitReq).1) ∧
    (¬ ((lastLog hbCommitReq).2 = hbCommitReq.term ∧
        oneEntryFollower.commitIndex < hbCommitReq.ldrCommitIndex) →
      (onAppendEntriesRequest oneEntryFollower hbCommitReq).1.commitIndex
        = oneEntryFollower.commitIndex)) :=
  ⟨by decide, by decide,
    append_commit_advance_spec oneEntryFollower hbCommitReq (by decide) (by decide)⟩

/-- Follower that knows leader L:1 for its term 2 and has already voted
for someone else. -/
def knownLdrFollower : RaftState :=
  ⟨2, "X:1", "L:1", Role.Follower, [], 0, 0, ⟨⟨[], 0, 0⟩, ⟨[], 0, 0⟩⟩, []⟩

/-- Vote request of term 2 by the known leader L:1. -/
def ldrVoteReq : VoteReq := ⟨2, "L:1", 0, 0⟩

theorem vote_known_leader_spec_witness :
    ldrVoteReq.term = knownLdrFollower.term ∧
    knownLdrFollower.leader ≠ "" ∧
    ((onVoteRequest knownLdrFollower ldrVoteReq).2.granted = true ↔
      ldrVoteReq.candidate = knownLdrFollower.leader) :=
  ⟨rfl, by decide, vote_known_leader_spec knownLdrFollower ldrVoteReq rfl (by decide)⟩

theorem vote_known_leader_frame_spec_witness :
    ldrVoteReq.term = knownLdrFollower.term ∧
    knownLdrFollower.leader ≠ "" ∧
    ldrVoteReq.candidate = knownLdrFollower.leader ∧
    ((onVoteRequest knownLdrFollower ldrVoteReq).2.granted = true ∧
    (onVoteRequest knownLdrFollower ldrVoteReq).1.votedFor = knownLdrFollower.votedFor ∧
    (onVoteRequest knownLdrFollower ldrVoteReq).1.writes = knownLdrFollower.writes) :=
  ⟨rfl, by decide, rfl,
    vote_known_leader_frame_spec knownLdrFollower ldrVoteReq rfl (by decide) rfl⟩

/-- Follower with two entries of term 1 and an uncommitted latest config
at index 2, for the C5 witness. -/
def twoEntryFollower : RaftState :=
  ⟨1, "", "", Role.Follower,
    [⟨EntryType.user, 1, 1, []⟩, ⟨EntryType.user, 2, 1, []⟩],
    0, 0, ⟨⟨[], 1, 1⟩, ⟨[], 2, 1⟩⟩, []⟩

/-- Incoming entries whose first element conflicts at index 2 (stored
term 1, incoming term 2). -/
def conflictEntries : List Entry := [⟨EntryType.user, 2, 2, []⟩]

theorem conflict_truncation_spec_witness :
    0 < conflictEntries.length ∧
    (∀ k, k < 0 → (conflictEntries.getD k default).index ≤ lastLogIndex twoEntryFollower ∧
      (getEntry twoEntryFollower (conflictEntries.getD k default).index).term
        = (conflictEntries.getD k default).term) ∧
    (conflictEntries.getD 0 default).index ≤ lastLogIndex twoEntryFollower ∧
    (getEntry twoEntryFollower (conflictEntries.getD 0 default).index).term
      ≠ (conflictEntries.getD 0 default).term ∧
    ((scanEntries twoEntryFollower conflictEntries).1.log
      = twoEntryFollower.log.take ((conflictEntries.getD 0 default).index - 1) ∧
    (scanEntries twoEntryFollower conflictEntries).1.configs.Latest
      = (if (conflictEntries.getD 0 default).index
            ≤ twoEntryFollower.configs.Latest.Index then twoEntryFollower.configs.Committed
          else twoEntryFollower.configs.Latest) ∧
    (scanEntries twoEntryFollower conflictEntries).1.configs.Committed
      = twoEntryFollower.configs.Committed ∧
    (scanEntries twoEntryFollower conflictEntries).2 = conflictEntries.drop 0 ∧
    handleEntries twoEntryFollower conflictEntries
      = appendNewEntries (scanEntries twoEntryFollower conflictEntries).1
          (conflictEntries.drop 0)) :=
  ⟨by decide, fun k hk => absurd hk (Nat.not_lt_zero k), by decide, by decide,
    conflict_truncation_spec twoEntryFollower conflictEntries 0 (by decide)
      (fun k hk => absurd hk (Nat.not_lt_zero k)) (by decide) (by decide)⟩

/-- Config at index 8 for the C6 amended witness. -/
def cfgAt8 : Config := ⟨[], 8, 1⟩

theorem configs_invariant_amended_witness :
    twoEntryFollower.configs.Committed.Index ≤ twoEntryFollower.configs.Latest.Index ∧
    twoEntryFollower.configs.Latest.Index ≤ cfgAt8.Index ∧
    ((changeConfig twoEntryFollower cfgAt8).configs.Latest = cfgAt8 ∧
    (changeConfig twoEntryFollower cfgAt8).configs.Committed
      = twoEntryFollower.configs.Latest ∧
    (changeConfig twoEntryFollower cfgAt8).configs.Committed.Index
      ≤ (changeConfig twoEntryFollower cfgAt8).configs.Latest.Index ∧
    (∀ e cnew, Config.decode e = some cnew →
      (applyConfigEntry twoEntryFollower e).configs.Latest = cnew ∧
      (applyConfigEntry twoEntryFollower e).configs.Committed
        = twoEntryFollower.configs.Latest) ∧
    (commitConfig twoEntryFollower).configs.Committed.Index
      ≤ (commitConfig twoEntryFollower).configs.Latest.Index ∧
    (revertConfig twoEntryFollower).configs.Committed.Index
      ≤ (revertConfig twoEntryFollower).configs.Latest.Index ∧
    (twoEntryFollower.configs.Latest.Index ≤ 9 →
      (setCommitIndex twoEntryFollower 9).configs.Committed.Index
        = twoEntryFollower.configs.Latest.Index) ∧
    (¬ twoEntryFollower.configs.Latest.Index ≤ 9 →
      (setCommitIndex twoEntryFollower 9).configs.Committed
        = twoEntryFollower.configs.Committed) ∧
    (setCommitIndex twoEntryFollower 9).configs.Committed.Index
      ≤ (setCommitIndex twoEntryFollower 9).configs.Latest.Index) :=
  ⟨by decide, by decide,
    configs_invariant_amended twoEntryFollower cfgAt8 9 (by decide) (by decide)⟩

/-- Fresh leader of term 2 over a single term-1 entry, for the C7
witness. -/
def freshLeader : RaftState :=
  ⟨2, "", "L:1", Role.Leader, [⟨EntryType.user, 1, 1, []⟩], 1, 0,
    ⟨⟨[], 1, 1⟩, ⟨[], 1, 1⟩⟩, []⟩

theorem leader_noop_first_spec_witness :
    (∀ e ∈ freshLeader.log, e.term < freshLeader.term) ∧
    ((ldrInit freshLeader).startIndex = lastLogIndex freshLeader + 1 ∧
    (ldrInit freshLeader).log = freshLeader.log
      ++ [⟨EntryType.nop, lastLogIndex freshLeader + 1, freshLeader.term, []⟩] ∧
    lastLogIndex (ldrInit freshLeader) = (ldrInit freshLeader).startIndex ∧
    (∀ e ∈ (ldrInit freshLeader).log, e.term = freshLeader.term →
      e.index = (ldrInit freshLeader).startIndex ∧ e.typ = EntryType.nop)) :=
  ⟨by decide, leader_noop_first_spec freshLeader (by decide)⟩

theorem config_encode_decode_roundtrip_witness :
    (∀ p ∈ threeVoters.Nodes, p.1 = p.2.ID) ∧
    threeVoters.Nodes.length < 2 ^ 32 ∧
    (∀ p ∈ threeVoters.Nodes,
      p.2.ID < 2 ^ 64 ∧ p.2.Addr.length < 2 ^ 32 ∧ p.2.Action < 2 ^ 8) ∧
    Config.decode (Config.encode threeVoters) = some threeVoters :=
  ⟨by decide, by decide, by decide,
    config_encode_decode_roundtrip threeVoters (by decide) (by decide) (by decide)⟩

end Raft
